import Mathlib

/-!
Verification of the agate core: the locale-aware `Number` data type
(src/agate/data_types/number.py) and the `TableSet` grouping abstraction
(src/agate/tableset.py).

Python strings are modelled as Lean `String`; Python `str.strip` semantics
(remove all leading and trailing characters drawn from a set) is modelled
explicitly.  Exceptions are modelled with `Except`: the single `CastError`
kind of `Number.cast` becomes the error message string, and the errors a
`TableSet` can raise become the inductive `TSError`.
-/

namespace Agate

/-! ## Python string primitives -/

/-- Python `str.strip(chars)`: remove all leading and trailing characters
that belong to `cs`. -/
def pyStripChars (s : String) (cs : List Char) : String :=
  ⟨((s.data.dropWhile (fun c => cs.contains c)).reverse.dropWhile
      (fun c => cs.contains c)).reverse⟩

/-- Python `str.strip()` with no argument: remove all leading and trailing
whitespace characters. -/
def pyStripWs (s : String) : String :=
  ⟨((s.data.dropWhile Char.isWhitespace).reverse.dropWhile
      Char.isWhitespace).reverse⟩

/-- Python `str.lower()` restricted to ASCII letters, the only ones the
claims exercise. -/
def pyToLower (s : String) : String :=
  ⟨s.data.map Char.toLower⟩

/-! ## The decimal parser -/

/-- Modelled from the spec: the locale determines the grouping separator
(`babel` locale data; `de_DE` groups with a dot, `en_US` with a comma).
`babel.numbers.parse_decimal` is the external parser used by
`Number.test` and `Number.cast` and is not under src/. -/
def localeGroupSep (locale : String) : Char :=
  if locale = "de_DE" then '.' else ','

/-- Modelled from the spec: the locale determines the decimal separator
(`de_DE` uses a comma, `en_US` a dot). -/
def localeDecimalSep (locale : String) : Char :=
  if locale = "de_DE" then ',' else '.'

/-- Split a character list at its first dot, if any. -/
def splitFirstDot : List Char → Option (List Char × List Char)
  | [] => none
  | c :: rest =>
    if c = '.' then some ([], rest)
    else (splitFirstDot rest).map (fun p => (c :: p.1, p.2))

/-- Numeric value of a list of decimal digit characters. -/
def digitsToNat (l : List Char) : Nat :=
  l.foldl (fun acc c => acc * 10 + (c.toNat - 48)) 0

/-- Modelled from the spec: the final step of the external decimal parser,
reading an optional sign, an integer part and an optional fractional part
(at most one decimal point, at least one digit).  The result is the pair
(unscaled integer value, number of fractional digits), an exact decimal. -/
def parseDecimalChars (l : List Char) : Option (Int × Nat) :=
  let signBody : Bool × List Char :=
    match l with
    | '-' :: rest => (true, rest)
    | '+' :: rest => (false, rest)
    | _ => (false, l)
  let neg := signBody.1
  let body := signBody.2
  let signed : Nat → Int := fun v => if neg then -(v : Int) else (v : Int)
  match splitFirstDot body with
  | none =>
    if body.isEmpty then none
    else if body.all Char.isDigit then some (signed (digitsToNat body), 0)
    else none
  | some (ip, fp) =>
    if ip.isEmpty && fp.isEmpty then none
    else if ip.all Char.isDigit && fp.all Char.isDigit then
      some (signed (digitsToNat (ip ++ fp)), fp.length)
    else none

/-- Modelled from the spec: `babel.numbers.parse_decimal(string, locale)`,
the external locale-aware parser (not under src/).  It removes every
occurrence of the locale grouping separator, replaces the locale decimal
separator by a dot, and converts the remaining text to an exact decimal,
failing (`none`, which the callers turn into their own failure modes) when
the text is not a decimal literal. -/
def parse_decimal (s : String) (locale : String) : Option (Int × Nat) :=
  let gs := localeGroupSep locale
  let ds := localeDecimalSep locale
  parseDecimalChars
    ((s.data.filter (fun c => c ≠ gs)).map (fun c => if c = ds then '.' else c))

/-! ## The Number data type (src/agate/data_types/number.py) -/

/-- The list `CURRENCY_SYMBOLS` from src/agate/data_types/number.py. -/
def CURRENCY_SYMBOLS : List Char :=
  ['؋', '$', 'ƒ', '៛', '¥', '₡', '₱', '£', '€', '¢', '﷼', '₪', '₩', '₭', '₮', '₦', '฿', '₤', '₫']

/-- The per-symbol strip loop of `Number.test`: `for symbol in
CURRENCY_SYMBOLS: d = d.strip(symbol)`. -/
def stripCurrency (s : String) : String :=
  CURRENCY_SYMBOLS.foldl (fun acc c => pyStripChars acc [c]) s

/-- The `Number` data type: a locale plus the configured null-sentinel
strings (`null_values`, inherited from the base `DataType`). -/
structure Number where
  locale : String
  null_values : List String

/-- The method `Number.test` from src/agate/data_types/number.py: strip whitespace,
strip percent signs, strip every currency symbol from both ends, then
accept null sentinels and otherwise try the locale-aware parse, converting
any parse failure into `false`. -/
def Number.test (n : Number) (d : String) : Bool :=
  let d1 := pyStripWs d
  let d2 := pyStripChars d1 ['%']
  let d3 := stripCurrency d2
  if n.null_values.contains (pyToLower d3) then true
  else (parse_decimal d3 n.locale).isSome

/-- A Python value handed to `Number.cast`: a `Decimal`, `None`, an `int`,
a `float` (kept opaque: only its type matters to `cast`, so the payload is
its printed form), a `str`, or any other object (kept by its printed
form). -/
inductive PyVal where
  | pDecimal : Int → Nat → PyVal
  | pNone : PyVal
  | pInt : Int → PyVal
  | pFloat : String → PyVal
  | pStr : String → PyVal
  | pOther : String → PyVal
deriving DecidableEq, Repr

/-- The `CastError` message raised by `Number.cast` on `float` input. -/
def floatCastMsg : String :=
  "Can not convert float to Decimal. Convert data to string first!"

/-- The `CastError` message raised by `Number.cast` when the parse fails;
`v` is the offending value (for a string input, its stripped form). -/
def parseCastMsg (v : String) : String :=
  "Can not parse value \"" ++ v ++ "\" as Decimal."

/-- The method `Number.cast` from src/agate/data_types/number.py.  Decimals and
`None` pass through, ints convert exactly, floats are rejected outright,
strings are whitespace-stripped and checked against the null sentinels,
and everything left over goes to the locale-aware parse whose every
failure becomes a `CastError` (the bare `except`). -/
def Number.cast (n : Number) (d : PyVal) : Except String (Option (Int × Nat)) :=
  match d with
  | .pDecimal m e => .ok (some (m, e))
  | .pNone => .ok none
  | .pInt k => .ok (some (k, 0))
  | .pFloat _ => .error floatCastMsg
  | .pStr s =>
    let s1 := pyStripWs s
    if n.null_values.contains (pyToLower s1) then .ok none
    else
      match parse_decimal s1 n.locale with
      | some v => .ok (some v)
      | none => .error (parseCastMsg s1)
  | .pOther r =>
    -- parse_decimal on a non-string object fails; the bare except turns
    -- that into a CastError formatted with the printed value
    .error (parseCastMsg r)

/-- Modelled from the spec: a representative `Number` configuration.  The
default null sentinels live in the base `DataType` (not under src/); the
spec describes them only as a configured, case-insensitively matched set
of sentinel strings. -/
def enUS : Number :=
  { locale := "en_US", null_values := ["", "na", "n/a", "none", "null", "."] }

/-- A `Number` whose configured null-sentinel set contains the percent
sign itself. -/
def pctNull : Number := { locale := "en_US", null_values := ["%"] }

/-- The single-percent-strip normalization described by the spec wording:
after whitespace trimming, remove at most one leading and at most one
trailing percent sign, not more. -/
def stripOnePercent (s : String) : String :=
  let l1 : List Char :=
    match s.data with
    | '%' :: rest => rest
    | l => l
  match l1.reverse with
  | '%' :: rest => ⟨rest.reverse⟩
  | _ => ⟨l1⟩

/-- The variant of `Number.test` the spec wording describes, stripping a
single percent sign instead of all of them; compared against the source
behavior below. -/
def testSinglePercent (n : Number) (d : String) : Bool :=
  let d1 := pyStripWs d
  let d2 := stripOnePercent d1
  let d3 := stripCurrency d2
  if n.null_values.contains (pyToLower d3) then true
  else (parse_decimal d3 n.locale).isSome

/-! ## The TableSet data model (src/agate/tableset.py)

`Table`, `Column`, aggregation operators and `Table._fork` are external
collaborators of the tableset module, modelled from the spec; the
`TableSet` logic itself (construction checks, method proxying, recursive
aggregation) is translated from src/agate/tableset.py. -/

/-- A cell value: a string (group keys are inserted into rows as raw
strings), a decimal, or null. -/
inductive Value where
  | vStr : String → Value
  | vNum : Int → Nat → Value
  | vNull : Value
deriving DecidableEq, Repr

/-- Modelled from the spec: a column data type instance; the spec only
needs that types form a discrete set with a distinguished default `Text`.
-/
inductive DataType where
  | text : DataType
  | number : String → DataType
  | boolean : DataType
  | date : DataType
  | other : String → DataType
deriving DecidableEq, Repr

/-- Modelled from the spec: a `Table` is an ordered sequence of named,
typed columns plus an ordered sequence of rows. -/
structure Table where
  column_names : List String
  column_types : List DataType
  rows : List (List Value)
deriving DecidableEq, Repr

/-- Modelled from the spec: a `Column` as handed to an aggregation
operator: its declared type and its cell values. -/
structure Column where
  dtype : DataType
  values : List Value

/-- Modelled from the spec: an aggregation operator exposes
`get_aggregate_column_type(column)` and a value computation over a
column (`Column.aggregate(self, aggregation)` dispatches to it). -/
structure Aggregation where
  get_aggregate_column_type : Column → DataType
  run : Column → Value

/-- Modelled from the spec: `table.columns[name]` — `none` models the
`ColumnDoesNotExistError` the external `Table` raises for a missing
column name. -/
def Table.columns (t : Table) (name : String) : Option Column :=
  (t.column_names.findIdx? (fun x => x = name)).map fun i =>
    { dtype := t.column_types.getD i DataType.text
      values := t.rows.map (fun r => r.getD i Value.vNull) }

/-- Modelled from the spec: `Table._fork(rows, column_info)` constructs a
new `Table` from raw rows plus a sequence of (name, type) pairs. -/
def Table._fork (_t : Table) (rows : List (List Value))
    (column_info : List (String × DataType)) : Table :=
  { column_names := column_info.map Prod.fst
    column_types := column_info.map Prod.snd
    rows := rows }

/-- A `TableSet`: an ordered mapping (insertion-ordered association list,
as `OrderedDict`) from group key to member — each member a `Table` or a
nested `TableSet` — plus the grouping `key_name` and `key_type`. -/
inductive TableSet where
  | mk : List (String × (Table ⊕ TableSet)) → String → DataType → TableSet

/-- The `_tables` mapping. -/
def TableSet.tables : TableSet → List (String × (Table ⊕ TableSet))
  | .mk tbls _ _ => tbls

/-- The `_key_name` attribute. -/
def TableSet.key_name : TableSet → String
  | .mk _ kn _ => kn

/-- The `_key_type` attribute. -/
def TableSet.key_type : TableSet → DataType
  | .mk _ _ kt => kt

/-- Iteration order: `TableSet.__iter__` delegates to the ordered
mapping, yielding keys in insertion order. -/
def TableSet.keys (ts : TableSet) : List String := ts.tables.map Prod.fst

/-- The `_sample_table` resolution: take the first member and descend through
nested TableSets (`while isinstance(...): ... values()[0]`); `none`
models the `IndexError` raised when a set on that path is empty. -/
def TableSet.sample_table : TableSet → Option Table
  | .mk tbls _ _ =>
    match tbls with
    | [] => none
    | (_, Sum.inl t) :: _ => some t
    | (_, Sum.inr ts) :: _ => ts.sample_table

/-- The errors `TableSet.__init__` can raise: the `IndexError` escaping
from `list(group.values())[0]` on an empty mapping, or the explicit
`ValueError` raised by the schema checks. -/
inductive TSError where
  | indexError : TSError
  | valueError : String → TSError
deriving DecidableEq, Repr

/-- Message of the explicit schema check on column types. -/
def typesMismatchMsg : String := "Not all tables have the same column types!"

/-- Message of the explicit schema check on column names. -/
def namesMismatchMsg : String := "Not all tables have the same column names!"

/-- The `_column_names` attribute a member carries: a `Table` has its own
column names; a nested `TableSet` recorded its sample schema at its own
construction. -/
def memberNames : Table ⊕ TableSet → Option (List String)
  | Sum.inl t => some t.column_names
  | Sum.inr ts => ts.sample_table.map Table.column_names

/-- The `_column_types` attribute a member carries. -/
def memberTypes : Table ⊕ TableSet → Option (List DataType)
  | Sum.inl t => some t.column_types
  | Sum.inr ts => ts.sample_table.map Table.column_types

/-- The validation loop of `TableSet.__init__`: for each member, in
insertion order, raise on a column-type mismatch first, then on a
column-name mismatch. -/
def checkSchemas (cnames : List String) (ctypes : List DataType) :
    List (String × (Table ⊕ TableSet)) → Except TSError Unit
  | [] => .ok ()
  | (_, m) :: rest =>
    if memberTypes m ≠ some ctypes then .error (.valueError typesMismatchMsg)
    else if memberNames m ≠ some cnames then
      .error (.valueError namesMismatchMsg)
    else checkSchemas cnames ctypes rest

/-- Sample resolution starting from the first member of the group. -/
def resolveSampleMember : Table ⊕ TableSet → Option Table
  | Sum.inl t => some t
  | Sum.inr ts => ts.sample_table

/-- The constructor `TableSet.__init__(group, key_name, key_type)`: `key_type` defaults
to `Text`, the sample table is resolved from the first member, every
member schema is compared against it, and the group mapping is stored. -/
def TableSet.init (group : List (String × (Table ⊕ TableSet)))
    (key_name : String) (key_type : Option DataType) :
    Except TSError TableSet :=
  let kt := key_type.getD DataType.text
  match group.head? with
  | none => .error .indexError
  | some (_, m) =>
    match resolveSampleMember m with
    | none => .error .indexError
    | some sample =>
      match checkSchemas sample.column_names sample.column_types group with
      | .error e => .error e
      | .ok _ => .ok (.mk group key_name kt)

/-- The proxy `TableMethodProxy.__call__`: apply the named per-member operation to
every member in insertion order and wrap the results into a new
`TableSet`, passing only `key_name` through (so `key_type` defaults). -/
def TableMethodProxy.call (ts : TableSet)
    (method : Table ⊕ TableSet → Table ⊕ TableSet) : Except TSError TableSet :=
  TableSet.init (ts.tables.map (fun p => (p.1, method p.2))) ts.key_name none

/-- The result triple of `TableSet._aggregate`: column names, column
types, output rows. -/
abbrev AggResult := List String × List DataType × List (List Value)

/-- An `Except`-valued `map` over a list, sequencing failures in order. -/
def listMapM (f : α → Except String β) : List α → Except String (List β)
  | [] => .ok []
  | a :: l =>
    match f a with
    | .error e => .error e
    | .ok b =>
      match listMapM f l with
      | .error e => .error e
      | .ok bs => .ok (b :: bs)

/-- One schema entry of the base branch of `_aggregate`: look the source
column up in the sample table (`ColumnDoesNotExistError` when missing)
and pair the new column name with the aggregate column type. -/
def schemaCol (t0 : Table) (a : String × Aggregation × String) :
    Except String (String × DataType) :=
  match t0.columns a.1 with
  | some c => .ok (a.2.2, a.2.1.get_aggregate_column_type c)
  | none => .error ("ColumnDoesNotExistError: " ++ a.1)

/-- One aggregated cell of the base branch of `_aggregate`: look the
source column up in the member table and run the aggregation on it. -/
def leafVal (t : Table) (a : String × Aggregation × String) :
    Except String Value :=
  match t.columns a.1 with
  | some c => .ok (a.2.1.run c)
  | none => .error ("ColumnDoesNotExistError: " ++ a.1)

/-- One output row of the base (concrete `Table` members) branch of
`_aggregate`: the group key, then one aggregated value per triple.  A
nested `TableSet` reached by this branch only survives when there are no
aggregations (it has no `columns` attribute to consult). -/
def leafRow (aggs : List (String × Aggregation × String))
    (p : String × (Table ⊕ TableSet)) : Except String (List Value) :=
  match p.2 with
  | Sum.inl t =>
    match listMapM (leafVal t) aggs with
    | .error e => .error e
    | .ok vals => .ok (Value.vStr p.1 :: vals)
  | Sum.inr _ =>
    if aggs.isEmpty then .ok [Value.vStr p.1]
    else .error "AttributeError: TableSet has no attribute columns"

/-- The output accumulation of the nested branch of `_aggregate`: for
each recursive result in order, its rows with the member key prepended
(`row.insert(0, key)` before `output.append(row)`). -/
def flatKeyedRows : List (String × AggResult) → List (List Value)
  | [] => []
  | r :: rs => r.2.2.2.map (fun row => Value.vStr r.1 :: row) ++ flatKeyedRows rs

mutual

/-- The method `TableSet._aggregate(aggregations)` from src/agate/tableset.py.  The
branch is chosen by the type of the *first* member.  Nested branch:
recursively aggregate every member, prepend the member key to each nested
row, and prepend `key_name`/`key_type` to the schema of the *last*
recursive result (the loop variables that survive the Python `for`).
Base branch: schema is the key column followed by one column per
aggregation triple typed from the sample (first) table, and one row per
member. -/
def TableSet._aggregate (aggs : List (String × Aggregation × String)) :
    TableSet → Except String AggResult
  | .mk tbls kn kt =>
    match tbls with
    | [] => .error "IndexError: list index out of range"
    | (_, Sum.inr _) :: _ =>
      match aggMembers aggs tbls with
      | .error e => .error e
      | .ok results =>
        match results.getLast? with
        | some last =>
          .ok (kn :: last.2.1, kt :: last.2.2.1, flatKeyedRows results)
        | none => .error "IndexError: list index out of range"
    | (_, Sum.inl t0) :: _ =>
      match listMapM (schemaCol t0) aggs with
      | .error e => .error e
      | .ok cols =>
        match listMapM (leafRow aggs) tbls with
        | .error e => .error e
        | .ok rows =>
          .ok (kn :: cols.map Prod.fst, kt :: cols.map Prod.snd, rows)

/-- The member loop of the nested branch: every member must itself be a
`TableSet` (a `Table` there has no `_aggregate`), and each is aggregated
recursively in insertion order. -/
def aggMembers (aggs : List (String × Aggregation × String)) :
    List (String × (Table ⊕ TableSet)) →
    Except String (List (String × AggResult))
  | [] => .ok []
  | (_, Sum.inl _) :: _ =>
    .error "AttributeError: Table has no attribute _aggregate"
  | (k, Sum.inr ts) :: rest =>
    match TableSet._aggregate aggs ts with
    | .error e => .error e
    | .ok r =>
      match aggMembers aggs rest with
      | .error e => .error e
      | .ok rs => .ok ((k, r) :: rs)

end

/-- The method `TableSet.aggregate(aggregations)`: run `_aggregate` and build the
output `Table` with `sample_table._fork(output, zip(names, types))`. -/
def TableSet.aggregate (ts : TableSet)
    (aggs : List (String × Aggregation × String)) : Except String Table :=
  match TableSet._aggregate aggs ts with
  | .error e => .error e
  | .ok r =>
    match ts.sample_table with
    | some sample => .ok (sample._fork r.2.2 (r.1.zip r.2.1))
    | none => .error "IndexError: list index out of range"

/-- Concrete tables used to evaluate the claim theorems at explicit
inputs. -/
def wT1 : Table :=
  { column_names := ["a", "b"], column_types := [.text, .number "en_US"],
    rows := [[.vStr "x", .vNum 1 0]] }

def wT2 : Table :=
  { column_names := ["a", "b"], column_types := [.text, .number "en_US"],
    rows := [[.vStr "y", .vNum 2 0]] }

/-- A table whose column names diverge from `wT1`. -/
def wT3 : Table :=
  { column_names := ["a", "c"], column_types := [.text, .number "en_US"],
    rows := [] }


/-- The key-column prefixes the nested-aggregation claim predicts: one
row per (outer key, inner key) leaf combination, in order, each beginning
with the outer key value followed by the inner key value. -/
def expectedPrefixes : List (String × TableSet) → List (List Value)
  | [] => []
  | p :: ps =>
    p.2.tables.map (fun q => [Value.vStr p.1, Value.vStr q.1])
      ++ expectedPrefixes ps

/-- A concrete inner TableSet with a single member table. -/
def wInner1 : TableSet := .mk [("x", Sum.inl wT1)] "yr" DataType.text

/-- A concrete inner TableSet with two member tables. -/
def wInner2 : TableSet :=
  .mk [("y", Sum.inl wT1), ("z", Sum.inl wT2)] "yr" DataType.text

/-- The Table produced by aggregating the concrete two-level TableSet
over `wInner1` and `wInner2` with no aggregations. -/
def wNestedTbl : Table :=
  { column_names := ["st", "yr"], column_types := [.text, .text],
    rows := [[.vStr "A", .vStr "x"], [.vStr "B", .vStr "y"],
      [.vStr "B", .vStr "z"]] }


/-! ## Lemmas about Python stripping -/

theorem dropWhile_cons_of_neg {p : Char → Bool} {a : Char} {l : List Char}
    (h : p a = false) : List.dropWhile p (a :: l) = a :: l := by
  simp [List.dropWhile_cons, h]

theorem dropWhile_of_forall_neg {p : Char → Bool} {l : List Char}
    (h : ∀ c ∈ l, p c = false) : List.dropWhile p l = l := by
  cases l with
  | nil => rfl
  | cons a l => exact dropWhile_cons_of_neg (h a (List.mem_cons_self a l))

theorem dropWhile_replicate_append {p : Char → Bool} {a : Char}
    (h : p a = true) (k : Nat) (l : List Char) :
    List.dropWhile p (List.replicate k a ++ l) = List.dropWhile p l := by
  induction k with
  | zero => simp
  | succ k ih =>
    rw [List.replicate_succ, List.cons_append, List.dropWhile_cons, h]
    simpa using ih

theorem pyStripWs_of_forall_neg {l : List Char}
    (h : ∀ c ∈ l, Char.isWhitespace c = false) : pyStripWs ⟨l⟩ = ⟨l⟩ := by
  unfold pyStripWs
  rw [dropWhile_of_forall_neg h,
    dropWhile_of_forall_neg (fun c hc => h c (List.mem_reverse.mp hc)),
    List.reverse_reverse]

theorem percent_strip_all (k : Nat) :
    pyStripChars ⟨'5' :: '0' :: List.replicate k '%'⟩ ['%'] = "50" := by
  unfold pyStripChars
  have h5 : (fun c => List.contains ['%'] c) '5' = false := by decide
  have h0 : (fun c => List.contains ['%'] c) '0' = false := by decide
  have hp : (fun c => List.contains ['%'] c) '%' = true := by decide
  rw [show (⟨'5' :: '0' :: List.replicate k '%'⟩ : String).data
      = '5' :: '0' :: List.replicate k '%' from rfl]
  rw [dropWhile_cons_of_neg h5]
  rw [List.reverse_cons, List.reverse_cons, List.reverse_replicate,
    List.append_assoc]
  rw [dropWhile_replicate_append hp]
  rw [show (['0'] ++ ['5'] : List Char) = ['0', '5'] from rfl]
  rw [dropWhile_cons_of_neg h0]
  rfl

/-! ## Claim theorems about Number -/

/-- C4: for every floating-point input, `Number.cast` raises `CastError`
regardless of the value. -/
theorem cast_rejects_float (n : Number) (x : String) :
    Number.cast n (.pFloat x) = .error floatCastMsg := rfl

/-- C9: `Number.cast` either returns a value or fails with one of the two
`CastError` messages (the float rejection, or a parse failure carrying the
offending value); no other failure kind escapes, for inputs of any type. -/
theorem cast_fails_only_with_cast_error (n : Number) (d : PyVal) :
    (∃ v, Number.cast n d = .ok v) ∨ Number.cast n d = .error floatCastMsg ∨
      ∃ s, Number.cast n d = .error (parseCastMsg s) := by
  cases d with
  | pDecimal m e => exact .inl ⟨some (m, e), rfl⟩
  | pNone => exact .inl ⟨none, rfl⟩
  | pInt k => exact .inl ⟨some (k, 0), rfl⟩
  | pFloat x => exact .inr (.inl rfl)
  | pStr s =>
    by_cases h : pyToLower (pyStripWs s) ∈ n.null_values
    · exact .inl ⟨none, by simp [Number.cast, h]⟩
    · cases hp : parse_decimal (pyStripWs s) n.locale with
      | some v => exact .inl ⟨some v, by simp [Number.cast, h, hp]⟩
      | none =>
        exact .inr (.inr ⟨pyStripWs s, by simp [Number.cast, h, hp]⟩)
  | pOther r => exact .inr (.inr ⟨r, rfl⟩)

/-- C3: for every text input that is not a null sentinel, `cast` applies
only whitespace trimming before the locale-aware parse (no percent or
currency stripping); consequently `test` accepts "45%" and "$1,234.00"
under en_US while `cast` fails on the very same strings. -/
theorem cast_strips_only_whitespace :
    (∀ (n : Number) (s : String),
        n.null_values.contains (pyToLower (pyStripWs s)) = false →
        Number.cast n (.pStr s) =
          match parse_decimal (pyStripWs s) n.locale with
          | some v => .ok (some v)
          | none => .error (parseCastMsg (pyStripWs s))) ∧
    Number.test enUS "45%" = true ∧
    Number.cast enUS (.pStr "45%") = .error (parseCastMsg "45%") ∧
    Number.test enUS "$1,234.00" = true ∧
    Number.cast enUS (.pStr "$1,234.00") = .error (parseCastMsg "$1,234.00") := by
  refine ⟨fun n s h => ?_, by decide, rfl, by decide, rfl⟩
  have h2 : pyToLower (pyStripWs s) ∉ n.null_values := by simpa using h
  simp [Number.cast, h2]

theorem cast_strips_only_whitespace_witness :
    enUS.null_values.contains (pyToLower (pyStripWs "45%")) = false ∧
    Number.cast enUS (.pStr "45%") =
      match parse_decimal (pyStripWs "45%") enUS.locale with
      | some v => .ok (some v)
      | none => .error (parseCastMsg (pyStripWs "45%")) :=
  ⟨by decide, cast_strips_only_whitespace.1 enUS "45%" (by decide)⟩

/-- C5 counterexample: with the percent sign configured as a null
sentinel, the trimmed, lower-cased input "%" is in the sentinel set and
`cast` returns null, but `test` returns false (its percent stripping
empties the string before the sentinel comparison), refuting the claim
that `test` returns true for every such text. -/
theorem null_sentinel_test_can_fail :
    pctNull.null_values.contains (pyToLower (pyStripWs "%")) = true ∧
    Number.cast pctNull (.pStr "%") = .ok none ∧
    Number.test pctNull "%" = false :=
  ⟨by decide, rfl, by decide⟩

/-- C5 (amended): for every text whose trimmed, lower-cased form is a
configured null sentinel, `cast` returns null; `test` additionally
returns true provided the text still lower-cases into the sentinel set
after the percent and currency stripping `test` performs first (as every
default sentinel does). -/
theorem null_sentinel_cast_null_test_true (n : Number) (s : String)
    (h : n.null_values.contains (pyToLower (pyStripWs s)) = true) :
    Number.cast n (.pStr s) = .ok none ∧
    (n.null_values.contains
        (pyToLower (stripCurrency (pyStripChars (pyStripWs s) ['%']))) = true →
      Number.test n s = true) := by
  have h1 : pyToLower (pyStripWs s) ∈ n.null_values := by simpa using h
  refine ⟨by simp [Number.cast, h1], fun h2 => ?_⟩
  have h3 : pyToLower (stripCurrency (pyStripChars (pyStripWs s) ['%']))
      ∈ n.null_values := by simpa using h2
  simp [Number.test, h3]

theorem null_sentinel_cast_null_test_true_witness :
    Number.cast enUS (.pStr " NA ") = .ok none ∧
    Number.test enUS " NA " = true := by
  have h := null_sentinel_cast_null_test_true enUS " NA " (by decide)
  exact ⟨h.1, h.2 (by decide)⟩

/-- C6 counterexample: on "50%%" the source `test` strips both trailing
percent signs and accepts the input, while the single-percent-strip
behavior the claim describes leaves "50%" and rejects it, so stripping is
not limited to one percent sign. -/
theorem percent_strip_not_single :
    Number.test enUS "50%%" = true ∧ testSinglePercent enUS "50%%" = false := by
  exact ⟨by decide, by decide⟩

/-- C6 (amended): `test` strips all leading and trailing percent signs
after whitespace trimming, so "50" followed by any number of percent
signs is accepted. -/
theorem percent_strip_strips_all (k : Nat) :
    Number.test enUS ⟨'5' :: '0' :: List.replicate k '%'⟩ = true := by
  have hws : pyStripWs ⟨'5' :: '0' :: List.replicate k '%'⟩
      = ⟨'5' :: '0' :: List.replicate k '%'⟩ := by
    refine pyStripWs_of_forall_neg fun c hc => ?_
    rcases List.mem_cons.mp hc with rfl | hc
    · decide
    rcases List.mem_cons.mp hc with rfl | hc
    · decide
    · rw [(List.eq_of_mem_replicate hc : c = '%')]; decide
  have hp : pyStripChars (pyStripWs ⟨'5' :: '0' :: List.replicate k '%'⟩) ['%']
      = "50" := by rw [hws]; exact percent_strip_all k
  simp only [Number.test, hp]
  decide

/-! ## Claim theorems about TableSet -/

/-- C7 (the code at the failing input): constructing a TableSet from a
group mapping with zero members fails with the IndexError escaping from
`list(group.values())[0]` during sample-table resolution — an internal
out-of-bounds failure, not the clear explicit error the spec requires. -/
theorem init_empty_group_index_error (key_name : String)
    (key_type : Option DataType) :
    TableSet.init [] key_name key_type = .error TSError.indexError := rfl

/-- C10: a proxied per-table operation rebuilds the result TableSet
passing only `key_name` through, so whenever the call succeeds the result
keeps the original key_name but its key_type is reset to the default
`Text`, whatever the original key_type was. -/
theorem proxy_resets_key_type (ts : TableSet)
    (method : Table ⊕ TableSet → Table ⊕ TableSet) (out : TableSet)
    (h : TableMethodProxy.call ts method = .ok out) :
    out.key_name = ts.key_name ∧ out.key_type = DataType.text := by
  unfold TableMethodProxy.call TableSet.init at h
  cases hh : (ts.tables.map (fun p => (p.1, method p.2))).head? with
  | none => rw [hh] at h; exact absurd h (by simp)
  | some pm =>
    obtain ⟨k, m⟩ := pm
    rw [hh] at h
    dsimp only at h
    cases hr : resolveSampleMember m with
    | none => rw [hr] at h; exact absurd h (by simp)
    | some sample =>
      rw [hr] at h
      dsimp only at h
      cases hc : checkSchemas sample.column_names sample.column_types
          (ts.tables.map (fun p => (p.1, method p.2))) with
      | error e => rw [hc] at h; exact absurd h (by simp)
      | ok u =>
        rw [hc] at h
        cases h
        exact ⟨rfl, rfl⟩

theorem proxy_resets_key_type_witness :
    (TableSet.mk [("k1", Sum.inl wT1)] "grp" DataType.text).key_name = "grp" ∧
    (TableSet.mk [("k1", Sum.inl wT1)] "grp" DataType.text).key_type
      = DataType.text :=
  proxy_resets_key_type
    (.mk [("k1", Sum.inl wT1)] "grp" (DataType.number "en_US")) (fun m => m)
    (.mk [("k1", Sum.inl wT1)] "grp" DataType.text) rfl

/-! ### Construction-time schema validation (C2) -/

theorem checkSchemas_ok_iff (cnames : List String) (ctypes : List DataType)
    (l : List (String × (Table ⊕ TableSet))) :
    checkSchemas cnames ctypes l = .ok () ↔
      ∀ p ∈ l, memberNames p.2 = some cnames ∧ memberTypes p.2 = some ctypes := by
  induction l with
  | nil => simp [checkSchemas]
  | cons a l ih =>
    obtain ⟨k, m⟩ := a
    by_cases ht : memberTypes m = some ctypes
    · by_cases hn : memberNames m = some cnames
      · simp [checkSchemas, ht, hn, ih]
      · simp [checkSchemas, ht, hn]
    · simp [checkSchemas, ht]

theorem checkSchemas_error_sound (cnames : List String)
    (ctypes : List DataType) (l : List (String × (Table ⊕ TableSet)))
    (e : TSError) (h : checkSchemas cnames ctypes l = .error e) :
    (e = .valueError typesMismatchMsg ∧
      ∃ p ∈ l, memberTypes p.2 ≠ some ctypes) ∨
    (e = .valueError namesMismatchMsg ∧
      ∃ p ∈ l, memberNames p.2 ≠ some cnames) := by
  induction l with
  | nil => simp [checkSchemas] at h
  | cons a l ih =>
    obtain ⟨k, m⟩ := a
    by_cases ht : memberTypes m = some ctypes
    · by_cases hn : memberNames m = some cnames
      · rw [show checkSchemas cnames ctypes ((k, m) :: l)
            = checkSchemas cnames ctypes l by simp [checkSchemas, ht, hn]] at h
        rcases ih h with ⟨he, p, hp, hx⟩ | ⟨he, p, hp, hx⟩
        · exact .inl ⟨he, p, List.mem_cons_of_mem _ hp, hx⟩
        · exact .inr ⟨he, p, List.mem_cons_of_mem _ hp, hx⟩
      · have : e = TSError.valueError namesMismatchMsg := by
          have h2 := h
          simp [checkSchemas, ht, hn] at h2
          exact h2.symm
        exact .inr ⟨this, (k, m), List.mem_cons_self _ _, hn⟩
    · have : e = TSError.valueError typesMismatchMsg := by
        have h2 := h
        simp [checkSchemas, ht] at h2
        exact h2.symm
      exact .inl ⟨this, (k, m), List.mem_cons_self _ _, ht⟩

/-- Unfolding of `TableSet.init` on a nonempty group whose sample
resolution succeeds. -/
theorem init_cons (k0 : String) (m0 : Table ⊕ TableSet)
    (rest : List (String × (Table ⊕ TableSet))) (kn : String)
    (kt : Option DataType) (sample : Table)
    (hs : resolveSampleMember m0 = some sample) :
    TableSet.init ((k0, m0) :: rest) kn kt
      = match checkSchemas sample.column_names sample.column_types
          ((k0, m0) :: rest) with
        | .error e => .error e
        | .ok _ => .ok (.mk ((k0, m0) :: rest) kn (kt.getD DataType.text)) := by
  unfold TableSet.init
  dsimp only [List.head?]
  rw [hs]

/-- C2: with a nonempty group of direct `Table` members, construction
fails with the types-mismatch `ValueError` or the names-mismatch
`ValueError` exactly when some member schema diverges from the sample
(first) table, the error correctly identifying a diverging aspect; and
when every member schema matches, construction succeeds and the resulting
TableSet iterates its keys in the insertion order of the group. -/
theorem init_schema_validation (g0 : String × Table)
    (rest : List (String × Table)) (kn : String) (kt : Option DataType) :
    ((∀ p ∈ g0 :: rest, p.2.column_names = g0.2.column_names ∧
        p.2.column_types = g0.2.column_types) →
      TableSet.init ((g0 :: rest).map (fun p => (p.1, Sum.inl p.2))) kn kt
          = .ok (.mk ((g0 :: rest).map (fun p => (p.1, Sum.inl p.2))) kn
              (kt.getD DataType.text)) ∧
        (TableSet.mk ((g0 :: rest).map (fun p => (p.1, Sum.inl p.2))) kn
            (kt.getD DataType.text)).keys = (g0 :: rest).map Prod.fst) ∧
    ((∃ p ∈ g0 :: rest, p.2.column_names ≠ g0.2.column_names ∨
        p.2.column_types ≠ g0.2.column_types) →
      (TableSet.init ((g0 :: rest).map (fun p => (p.1, Sum.inl p.2))) kn kt
          = .error (.valueError typesMismatchMsg) ∧
        ∃ p ∈ g0 :: rest, p.2.column_types ≠ g0.2.column_types) ∨
      (TableSet.init ((g0 :: rest).map (fun p => (p.1, Sum.inl p.2))) kn kt
          = .error (.valueError namesMismatchMsg) ∧
        ∃ p ∈ g0 :: rest, p.2.column_names ≠ g0.2.column_names)) := by
  obtain ⟨k0, t0⟩ := g0
  constructor
  · intro hall
    have hc : checkSchemas t0.column_names t0.column_types
        ((k0, Sum.inl t0) :: rest.map (fun p => (p.1, Sum.inl p.2)))
        = .ok () := by
      rw [checkSchemas_ok_iff]
      intro p hp
      rcases List.mem_cons.mp hp with rfl | hp
      · exact ⟨rfl, rfl⟩
      · rw [List.mem_map] at hp
        obtain ⟨q, hq, rfl⟩ := hp
        have h2 := hall q (List.mem_cons_of_mem _ hq)
        simp [memberNames, memberTypes, h2.1, h2.2]
    refine ⟨?_, by simp [TableSet.keys, TableSet.tables]⟩
    show TableSet.init ((k0, Sum.inl t0)
        :: rest.map (fun p => (p.1, Sum.inl p.2))) kn kt = _
    rw [init_cons k0 (Sum.inl t0) _ kn kt t0 rfl, hc]
    rfl
  · intro hsome
    have hnotok : checkSchemas t0.column_names t0.column_types
        ((k0, Sum.inl t0) :: rest.map (fun p => (p.1, Sum.inl p.2)))
        ≠ .ok () := by
      intro hc
      rw [checkSchemas_ok_iff] at hc
      obtain ⟨p, hp, hq⟩ := hsome
      have h2 := hc (p.1, Sum.inl p.2)
        (show (p.1, Sum.inl p.2)
            ∈ ((k0, t0) :: rest).map (fun p => (p.1, Sum.inl p.2)) from
          List.mem_map.mpr ⟨p, hp, rfl⟩)
      rcases hq with hq | hq
      · exact hq (by simpa [memberNames] using h2.1)
      · exact hq (by simpa [memberTypes] using h2.2)
    cases hc : checkSchemas t0.column_names t0.column_types
        ((k0, Sum.inl t0) :: rest.map (fun p => (p.1, Sum.inl p.2))) with
    | ok u => cases u; exact absurd hc hnotok
    | error e =>
      have herr : TableSet.init
          (((k0, t0) :: rest).map (fun p => (p.1, Sum.inl p.2))) kn kt
          = .error e := by
        show TableSet.init ((k0, Sum.inl t0)
            :: rest.map (fun p => (p.1, Sum.inl p.2))) kn kt = _
        rw [init_cons k0 (Sum.inl t0) _ kn kt t0 rfl, hc]
      rcases checkSchemas_error_sound _ _ _ _ hc
        with ⟨he, p, hp, hx⟩ | ⟨he, p, hp, hx⟩
      · subst he
        refine .inl ⟨herr, ?_⟩
        rcases List.mem_cons.mp hp with rfl | hp
        · exact (hx rfl).elim
        · rw [List.mem_map] at hp
          obtain ⟨q, hq, rfl⟩ := hp
          exact ⟨q, List.mem_cons_of_mem _ hq,
            by simpa [memberTypes] using hx⟩
      · subst he
        refine .inr ⟨herr, ?_⟩
        rcases List.mem_cons.mp hp with rfl | hp
        · exact (hx rfl).elim
        · rw [List.mem_map] at hp
          obtain ⟨q, hq, rfl⟩ := hp
          exact ⟨q, List.mem_cons_of_mem _ hq,
            by simpa [memberNames] using hx⟩

theorem init_schema_validation_witness :
    (TableSet.init [("k1", Sum.inl wT1), ("k2", Sum.inl wT2)] "grp" none
        = .ok (.mk [("k1", Sum.inl wT1), ("k2", Sum.inl wT2)] "grp"
            DataType.text) ∧
      (TableSet.mk [("k1", Sum.inl wT1), ("k2", Sum.inl wT2)] "grp"
          DataType.text).keys = ["k1", "k2"]) ∧
    ((TableSet.init [("k1", Sum.inl wT1), ("k2", Sum.inl wT3)] "grp" none
        = .error (.valueError typesMismatchMsg) ∧
      ∃ p ∈ [("k1", wT1), ("k2", wT3)], p.2.column_types ≠ wT1.column_types) ∨
     (TableSet.init [("k1", Sum.inl wT1), ("k2", Sum.inl wT3)] "grp" none
        = .error (.valueError namesMismatchMsg) ∧
      ∃ p ∈ [("k1", wT1), ("k2", wT3)], p.2.column_names ≠ wT1.column_names)) := by
  constructor
  · have h := (init_schema_validation ("k1", wT1) [("k2", wT2)] "grp" none).1
      (by intro p hp; fin_cases hp <;> exact ⟨rfl, rfl⟩)
    simpa using h
  · have h := (init_schema_validation ("k1", wT1) [("k2", wT3)] "grp" none).2
      ⟨("k2", wT3), by simp, .inl (by decide)⟩
    simpa using h

/-! ### Aggregation with no aggregation triples (C8) -/

theorem listMapM_leafRow_empty (tbls : List (String × (Table ⊕ TableSet))) :
    listMapM (leafRow []) tbls = .ok (tbls.map (fun p => [Value.vStr p.1])) := by
  induction tbls with
  | nil => rfl
  | cons a l ih =>
    obtain ⟨k, m⟩ := a
    cases m with
    | inl t => simp [listMapM, leafRow, ih]
    | inr ts => simp [listMapM, leafRow, ih]

/-- C8: aggregating a TableSet of concrete Tables with an empty
aggregation sequence yields a Table with exactly one column — named
`key_name`, typed `key_type` — and one row per group, each row holding
only that group key. -/
theorem aggregate_no_aggregations (kn k0 : String) (kt : DataType)
    (t0 : Table) (rest : List (String × (Table ⊕ TableSet)))
    (hrest : ∀ p ∈ rest, ∃ t, p.2 = Sum.inl t) :
    ∃ tbl,
      TableSet.aggregate (.mk ((k0, Sum.inl t0) :: rest) kn kt) [] = .ok tbl ∧
        tbl.column_names = [kn] ∧ tbl.column_types = [kt] ∧
        tbl.rows = (TableSet.mk ((k0, Sum.inl t0) :: rest) kn kt).keys.map
          (fun k => [Value.vStr k]) := by
  have hagg : TableSet._aggregate [] (.mk ((k0, Sum.inl t0) :: rest) kn kt)
      = .ok ([kn], [kt],
          ((k0, Sum.inl t0) :: rest).map (fun p => [Value.vStr p.1])) := by
    rw [TableSet._aggregate]
    rw [listMapM_leafRow_empty ((k0, Sum.inl t0) :: rest)]
    rfl
  refine ⟨Table._fork t0
      (((k0, Sum.inl t0) :: rest).map (fun p => [Value.vStr p.1]))
      ([kn].zip [kt]), ?_, rfl, rfl, ?_⟩
  · unfold TableSet.aggregate
    rw [hagg]
    rfl
  · simp [TableSet.keys, TableSet.tables, Table._fork]

theorem aggregate_no_aggregations_witness :
    ∃ tbl, TableSet.aggregate
        (.mk [("k1", Sum.inl wT1), ("k2", Sum.inl wT2)] "grp"
          (DataType.number "en_US")) [] = .ok tbl ∧
      tbl.column_names = ["grp"] ∧
      tbl.column_types = [DataType.number "en_US"] ∧
      tbl.rows = [[Value.vStr "k1"], [Value.vStr "k2"]] := by
  have h := aggregate_no_aggregations "grp" "k1" (DataType.number "en_US")
    wT1 [("k2", Sum.inl wT2)] (by intro p hp; fin_cases hp; exact ⟨wT2, rfl⟩)
  simpa using h

/-! ### Nested aggregation (C1) -/

theorem listMapM_forall2 {f : α → Except String β} :
    ∀ {l : List α} {bs : List β}, listMapM f l = .ok bs →
      List.Forall₂ (fun a b => f a = .ok b) l bs := by
  intro l
  induction l with
  | nil => intro bs h; cases h; exact .nil
  | cons a l ih =>
    intro bs h
    rw [listMapM] at h
    cases hfa : f a with
    | error e => rw [hfa] at h; exact absurd h (by simp)
    | ok b =>
      rw [hfa] at h
      cases hrest : listMapM f l with
      | error e => rw [hrest] at h; exact absurd h (by simp)
      | ok bs2 =>
        rw [hrest] at h
        cases h
        exact .cons hfa (ih hrest)

theorem forall2_imp_mem {R S : α → β → Prop} :
    ∀ {l : List α} {bs : List β}, List.Forall₂ R l bs →
      (∀ a ∈ l, ∀ b, R a b → S a b) → List.Forall₂ S l bs := by
  intro l bs h
  induction h with
  | nil => intro _; exact .nil
  | cons hab htail ih =>
    intro hm
    exact .cons (hm _ (List.mem_cons_self _ _) _ hab)
      (ih fun a ha b hr => hm a (List.mem_cons_of_mem _ ha) b hr)

theorem forall2_getLast {R : α → β → Prop} :
    ∀ {l : List α} {bs : List β}, List.Forall₂ R l bs →
      ∀ b, bs.getLast? = some b → ∃ a, l.getLast? = some a ∧ R a b := by
  intro l bs h
  induction h with
  | nil => intro b hb; simp at hb
  | @cons a0 b0 l2 bs2 hab htail ih =>
    intro b hb
    cases htail with
    | nil =>
      rw [show ([b0] : List β).getLast? = some b0 from rfl] at hb
      cases hb
      exact ⟨a0, rfl, hab⟩
    | @cons a1 b1 l3 bs3 hab1 htail1 =>
      rw [List.getLast?_cons_cons] at hb
      obtain ⟨aa, ha, hr⟩ := ih b hb
      exact ⟨aa, by rw [List.getLast?_cons_cons]; exact ha, hr⟩

theorem forall2_map_eq {R : α → β → Prop} {f : β → γ} {g : α → γ} :
    ∀ {l : List α} {bs : List β}, List.Forall₂ R l bs →
      (∀ a b, R a b → f b = g a) → bs.map f = l.map g := by
  intro l bs h
  induction h with
  | nil => intro _; rfl
  | cons hab htail ih =>
    intro hfg
    simp only [List.map_cons]
    rw [hfg _ _ hab, ih hfg]

theorem leafRow_take1 (aggs : List (String × Aggregation × String))
    (p : String × (Table ⊕ TableSet)) (r : List Value)
    (h : leafRow aggs p = .ok r) : r.take 1 = [Value.vStr p.1] := by
  obtain ⟨k, m⟩ := p
  cases m with
  | inl t =>
    rw [leafRow] at h
    dsimp only at h
    cases hv : listMapM (leafVal t) aggs with
    | error e => rw [hv] at h; exact absurd h (by simp)
    | ok vals => rw [hv] at h; cases h; rfl
  | inr ts =>
    rw [leafRow] at h
    dsimp only at h
    by_cases ha : aggs.isEmpty = true
    · rw [if_pos ha] at h; cases h; rfl
    · rw [if_neg ha] at h; exact absurd h (by simp)

/-- Shape of a successful `_aggregate` on a TableSet whose members are
concrete Tables: the key column first, one schema entry per aggregation
triple, and one row per member beginning with the member key. -/
theorem _aggregate_leaf (aggs : List (String × Aggregation × String))
    (ts : TableSet) (hleaf : ∀ q ∈ ts.tables, ∃ t, q.2 = Sum.inl t)
    (names : List String) (types : List DataType) (rows : List (List Value))
    (h : TableSet._aggregate aggs ts = .ok (names, types, rows)) :
    names = ts.key_name :: aggs.map (fun a => a.2.2) ∧
    (∃ aggTys, types = ts.key_type :: aggTys ∧ aggTys.length = aggs.length) ∧
    rows.map (fun r => r.take 1)
      = ts.tables.map (fun p => [Value.vStr p.1]) := by
  obtain ⟨tbls, kn, kt⟩ := ts
  match tbls, hleaf, h with
  | [], _, h => rw [TableSet._aggregate] at h; exact absurd h (by simp)
  | (k0, Sum.inr its) :: rest, hleaf, _ =>
    obtain ⟨t, ht⟩ := hleaf (k0, Sum.inr its) (List.mem_cons_self _ _)
    exact absurd ht (by simp)
  | (k0, Sum.inl t0) :: rest, _, h =>
    rw [TableSet._aggregate] at h
    cases hcols : listMapM (schemaCol t0) aggs with
    | error e => rw [hcols] at h; exact absurd h (by simp)
    | ok cols =>
      rw [hcols] at h
      cases hrows : listMapM (leafRow aggs) ((k0, Sum.inl t0) :: rest) with
      | error e => rw [hrows] at h; exact absurd h (by simp)
      | ok rows2 =>
        rw [hrows] at h
        cases h
        have hf := listMapM_forall2 hcols
        refine ⟨?_, ⟨cols.map Prod.snd, rfl, ?_⟩, ?_⟩
        · show kn :: cols.map Prod.fst = kn :: aggs.map (fun a => a.2.2)
          rw [forall2_map_eq hf fun a b hab => ?_]
          rw [schemaCol] at hab
          cases hc : t0.columns a.1 with
          | some c => rw [hc] at hab; cases hab; rfl
          | none => rw [hc] at hab; exact absurd hab (by simp)
        · rw [List.length_map, hf.length_eq]
        · exact forall2_map_eq (listMapM_forall2 hrows)
            fun p r hr => leafRow_take1 aggs p r hr

theorem aggMembers_forall2 (aggs : List (String × Aggregation × String)) :
    ∀ (l : List (String × (Table ⊕ TableSet)))
      (results : List (String × AggResult)),
      aggMembers aggs l = .ok results →
      List.Forall₂ (fun p r => p.1 = r.1 ∧ ∃ its, p.2 = Sum.inr its ∧
        TableSet._aggregate aggs its = .ok r.2) l results := by
  intro l
  induction l with
  | nil => intro results h; cases h; exact .nil
  | cons a l ih =>
    intro results h
    obtain ⟨k, m⟩ := a
    cases m with
    | inl t => rw [aggMembers] at h; exact absurd h (by simp)
    | inr ts =>
      rw [aggMembers] at h
      cases hr : TableSet._aggregate aggs ts with
      | error e => rw [hr] at h; exact absurd h (by simp)
      | ok r =>
        rw [hr] at h
        cases hrest : aggMembers aggs l with
        | error e => rw [hrest] at h; exact absurd h (by simp)
        | ok rs =>
          rw [hrest] at h
          cases h
          exact .cons ⟨rfl, ts, rfl, hr⟩ (ih rs hrest)

/-- Shape of a successful `_aggregate` on a TableSet whose first member
is a nested TableSet: every member is aggregated recursively, the output
rows are the nested rows with member keys prepended, and the schema is
the key column in front of the *last* recursive schema. -/
theorem _aggregate_nested (aggs : List (String × Aggregation × String))
    (k0 : String) (its0 : TableSet)
    (rest : List (String × (Table ⊕ TableSet))) (kn : String) (kt : DataType)
    (names : List String) (types : List DataType) (rows : List (List Value))
    (h : TableSet._aggregate aggs (.mk ((k0, Sum.inr its0) :: rest) kn kt)
      = .ok (names, types, rows)) :
    ∃ results last,
      aggMembers aggs ((k0, Sum.inr its0) :: rest) = .ok results ∧
      results.getLast? = some last ∧
      names = kn :: last.2.1 ∧ types = kt :: last.2.2.1 ∧
      rows = flatKeyedRows results := by
  rw [TableSet._aggregate] at h
  cases hm : aggMembers aggs ((k0, Sum.inr its0) :: rest) with
  | error e => rw [hm] at h; exact absurd h (by simp)
  | ok results =>
    rw [hm] at h
    dsimp only at h
    cases hl : results.getLast? with
    | none => rw [hl] at h; exact absurd h (by simp)
    | some last =>
      rw [hl] at h
      cases h
      exact ⟨results, last, rfl, hl, rfl, rfl, rfl⟩

theorem flatKeyedRows_take2 :
    ∀ {l : List (String × TableSet)} {results : List (String × AggResult)},
      List.Forall₂ (fun p r => p.1 = r.1 ∧
        r.2.2.2.map (fun row => row.take 1)
          = p.2.tables.map (fun q => [Value.vStr q.1])) l results →
      (flatKeyedRows results).map (fun row => row.take 2)
        = expectedPrefixes l := by
  intro l results h
  induction h with
  | nil => rfl
  | @cons p r l2 rs2 hpr htail ih =>
    obtain ⟨hk, hrows⟩ := hpr
    rw [flatKeyedRows, expectedPrefixes, List.map_append, ih]
    congr 1
    simp only [List.map_map]
    have hcomp : ((fun row => List.take 2 row) ∘ fun row => Value.vStr r.1 :: row)
        = ((fun row : List Value => Value.vStr p.1 :: row)
            ∘ fun row => List.take 1 row) := by
      funext row
      simp [List.take_succ_cons, hk]
    rw [hcomp, ← List.map_map, hrows, List.map_map]
    rfl

/-- C1: aggregating a two-level TableSet (every member a nested TableSet
of concrete Tables, each nested level sharing its key_name and key_type)
produces a single Table whose leading columns are the outer key column
followed by the inner key column and then the aggregation result columns,
with exactly one row per (outer key, inner key) leaf combination, each
row beginning with its outer key value followed by its inner key value. -/
theorem nested_aggregate_shape (okn ikn : String) (okt ikt : DataType)
    (inners : List (String × TableSet))
    (aggs : List (String × Aggregation × String)) (tbl : Table)
    (hleaf : ∀ p ∈ inners, ∀ q ∈ p.2.tables, ∃ t, q.2 = Sum.inl t)
    (hkey : ∀ p ∈ inners, p.2.key_name = ikn ∧ p.2.key_type = ikt)
    (hok : TableSet.aggregate
        (.mk (inners.map (fun p => (p.1, Sum.inr p.2))) okn okt) aggs
      = .ok tbl) :
    tbl.column_names = okn :: ikn :: aggs.map (fun a => a.2.2) ∧
    (∃ aggTys, tbl.column_types = okt :: ikt :: aggTys ∧
      aggTys.length = aggs.length) ∧
    tbl.rows.map (fun r => r.take 2) = expectedPrefixes inners := by
  cases inners with
  | nil => simp [TableSet.aggregate, TableSet._aggregate] at hok
  | cons p0 ptail =>
    rw [show (p0 :: ptail).map (fun p => (p.1, Sum.inr p.2))
        = (p0.1, Sum.inr p0.2)
          :: ptail.map (fun p => (p.1, Sum.inr p.2)) from rfl] at hok
    unfold TableSet.aggregate at hok
    cases hagg : TableSet._aggregate aggs
        (.mk ((p0.1, Sum.inr p0.2)
          :: ptail.map (fun p => (p.1, Sum.inr p.2))) okn okt) with
    | error e => rw [hagg] at hok; exact absurd hok (by simp)
    | ok r =>
      obtain ⟨names, types, rows⟩ := r
      rw [hagg] at hok
      dsimp only at hok
      cases hs : TableSet.sample_table
          (.mk ((p0.1, Sum.inr p0.2)
            :: ptail.map (fun p => (p.1, Sum.inr p.2))) okn okt) with
      | none => rw [hs] at hok; exact absurd hok (by simp)
      | some sample =>
        rw [hs] at hok
        cases hok
        obtain ⟨results, last, hm, hl, hnames, htypes, hrows⟩ :=
          _aggregate_nested aggs p0.1 p0.2 _ okn okt names types rows hagg
        have hF : List.Forall₂ (fun m r => m.1 = r.1 ∧
              ∃ its, m.2 = Sum.inr its ∧
                TableSet._aggregate aggs its = .ok r.2)
            ((p0 :: ptail).map
              (fun p => (p.1, (Sum.inr p.2 : Table ⊕ TableSet))))
            results :=
          aggMembers_forall2 aggs _ results hm
        have h2 := List.forall₂_map_left_iff.mp hF
        have h3 : List.Forall₂ (fun (p : String × TableSet)
            (r : String × AggResult) => p.1 = r.1 ∧
            r.2.1 = ikn :: aggs.map (fun a => a.2.2) ∧
            (∃ aggTys, r.2.2.1 = ikt :: aggTys ∧
              aggTys.length = aggs.length) ∧
            r.2.2.2.map (fun row => row.take 1)
              = p.2.tables.map (fun q => [Value.vStr q.1]))
            (p0 :: ptail) results := by
          refine forall2_imp_mem h2 fun p hp r hr => ?_
          obtain ⟨rk, rn, rt, rr⟩ := r
          obtain ⟨hk1, its, hits, hagg2⟩ := hr
          obtain rfl : p.2 = its := Sum.inr.inj hits
          obtain ⟨e1, ⟨tys, e2, e3⟩, e4⟩ :=
            _aggregate_leaf aggs p.2 (hleaf p hp) rn rt rr hagg2
          obtain ⟨hkn, hkt⟩ := hkey p hp
          rw [hkn] at e1
          rw [hkt] at e2
          exact ⟨hk1, e1, ⟨tys, e2, e3⟩, e4⟩
        obtain ⟨pl, hpl, hS⟩ := forall2_getLast h3 last hl
        obtain ⟨hSk, hSn, ⟨tys, hSt, hSlen⟩, hSr⟩ := hS
        have hnames2 : names = okn :: ikn :: aggs.map (fun a => a.2.2) := by
          rw [hnames, hSn]
        have htypes2 : types = okt :: ikt :: tys := by
          rw [htypes, hSt]
        have hlen : names.length = types.length := by
          rw [hnames2, htypes2]
          simp [hSlen]
        refine ⟨?_, ⟨tys, ?_, hSlen⟩, ?_⟩
        · show (names.zip types).map Prod.fst = _
          rw [List.map_fst_zip _ _ (le_of_eq hlen), hnames2]
        · show (names.zip types).map Prod.snd = _
          rw [List.map_snd_zip _ _ (le_of_eq hlen.symm), htypes2]
        · show rows.map (fun r => r.take 2) = _
          rw [hrows]
          exact flatKeyedRows_take2
            (List.Forall₂.imp (fun a b hab => ⟨hab.1, hab.2.2.2⟩) h3)

theorem nested_aggregate_shape_witness :
    wNestedTbl.column_names = "st" :: "yr"
      :: ([] : List (String × Aggregation × String)).map (fun a => a.2.2) ∧
    (∃ aggTys, wNestedTbl.column_types = DataType.text :: DataType.text
        :: aggTys ∧ aggTys.length = 0) ∧
    wNestedTbl.rows.map (fun r => r.take 2)
      = expectedPrefixes [("A", wInner1), ("B", wInner2)] :=
  nested_aggregate_shape "st" "yr" DataType.text DataType.text
    [("A", wInner1), ("B", wInner2)] [] wNestedTbl
    (by
      intro p hp q hq
      rcases List.mem_cons.mp hp with rfl | hp
      · rcases List.mem_cons.mp hq with rfl | hq
        · exact ⟨wT1, rfl⟩
        · simp [wInner1, TableSet.tables] at hq
      · rcases List.mem_cons.mp hp with rfl | hp
        · rcases List.mem_cons.mp hq with rfl | hq
          · exact ⟨wT1, rfl⟩
          · rcases List.mem_cons.mp hq with rfl | hq
            · exact ⟨wT2, rfl⟩
            · simp at hq
        · simp at hp)
    (by
      intro p hp
      rcases List.mem_cons.mp hp with rfl | hp
      · exact ⟨rfl, rfl⟩
      · rcases List.mem_cons.mp hp with rfl | hp
        · exact ⟨rfl, rfl⟩
        · simp at hp)
    rfl

end Agate
